import Mathlib

set_option maxRecDepth 16000

namespace SolParsor

/- Verification of the solparsor lexer and parser: a shallow embedding of
src/lexer/lexer.go and of the parser package, with theorems about the
properties the specification states. Source text is modelled as the list of
its runes (Unicode code points as natural numbers), the unit in which the Go
lexer reads input; positions count runes. -/

/-- Runes of a string literal, as natural number code points. -/
def strRunes (s : String) : List Nat := s.data.map Char.toNat

/-- Modelled from the spec: the token package of the repository is not under
src. The spec fixes the kind alphabet as EOF, ILLEGAL, IDENTIFIER, keyword
kinds, literal kinds, punctuation kinds and operator kinds; the constructors
below are exactly the kinds that the lexer, the parser and the lexer test
reference. ILLEGAL is placed first so that the zero value of the Go
enumeration is ILLEGAL, following the go/token convention that the lexer
comments cite as their model. -/
inductive TokenType where
  | ILLEGAL
  | EOF
  | IDENTIFIER
  | CONTRACT
  | LIBRARY
  | FUNCTION
  | ADDRESS
  | UINT_256
  | BOOL
  | MAPPING
  | PUBLIC
  | CONSTANT
  | DECIMAL_NUMBER
  | HEX_NUMBER
  | SEMICOLON
  | LBRACE
  | RBRACE
  | LPAREN
  | RPAREN
  | LBRACKET
  | RBRACKET
  | PERIOD
  | NOT
  | NOT_EQUAL
  | ASSIGN
  | EQUAL
  | DOUBLE_ARROW
  | ADD
  | ASSIGN_ADD
  | INC
  | SUB
  | ASSIGN_SUB
  | DEC
  | RIGHT_ARROW
  | LESS_THAN
  | LESS_THAN_OR_EQUAL
  | SHL
  | ASSIGN_SHL
  | GREATER_THAN
  | GREATER_THAN_OR_EQUAL
  | SAR
  | ASSIGN_SAR
  | SHR
  | ASSIGN_SHR
  deriving DecidableEq

/-- The token.Token record: kind, literal text (a slice of the input, except
for ILLEGAL where it carries a message) and the rune offset of its start. -/
structure Token where
  type : TokenType
  literal : List Nat
  pos : Nat
  deriving DecidableEq

/-- Modelled from the spec: the keyword table consulted by LookupIdent of the
missing token package. Per the spec it is a fixed, exact, case sensitive
table; its entries are the keyword kinds the source and the lexer test
exercise, every other text being IDENTIFIER. -/
def LookupIdent (s : List Nat) : TokenType :=
  if s = strRunes "Contract" then .CONTRACT
  else if s = strRunes "Library" then .LIBRARY
  else if s = strRunes "function" then .FUNCTION
  else if s = strRunes "address" then .ADDRESS
  else if s = strRunes "uint256" then .UINT_256
  else if s = strRunes "bool" then .BOOL
  else if s = strRunes "mapping" then .MAPPING
  else if s = strRunes "public" then .PUBLIC
  else if s = strRunes "constant" then .CONSTANT
  else .IDENTIFIER

/-- The lexer record of src/lexer/lexer.go: the input, the start offset of the
token being scanned, the current offset, and the width of the last rune read.
The token channel is represented by the list of items the run produces. -/
structure LexState where
  input : List Nat
  start : Nat
  pos : Nat
  width : Nat
  deriving DecidableEq

/-- readChar of lexer.go: at or past the end of input it sets width to 0 and
returns the rune 0 (the eof constant); otherwise it reads the rune at pos,
sets width and advances pos. Widths are 1 because positions count runes. -/
def readChar (l : LexState) : Nat × LexState :=
  if l.input.length ≤ l.pos then
    (0, { l with width := 0 })
  else
    (l.input.getD l.pos 0, { l with width := 1, pos := l.pos + 1 })

/-- backup of lexer.go: steps back by the width of the last rune read. -/
def backup (l : LexState) : LexState :=
  { l with pos := l.pos - l.width }

/-- accept of lexer.go: consumes the next rune if it belongs to the valid
set, otherwise backs up. -/
def accept (valid : List Nat) (l : LexState) : Bool × LexState :=
  let r := readChar l
  if valid.contains r.1 then (true, r.2) else (false, backup r.2)

/-- The maximal run of runes satisfying p at the head of a list. -/
def runLength (p : Nat → Bool) : List Nat → Nat
  | [] => 0
  | c :: cs => if p c then runLength p cs + 1 else 0

/-- A read loop that consumes runes as long as they satisfy p and then backs
up, the common shape of acceptRun and of the lexIdentifier scan in lexer.go.
The final width is 1 when the loop stopped on a rune and 0 when it stopped at
the end of the input, exactly as the readChar and backup calls leave it. -/
def scanWhile (p : Nat → Bool) (l : LexState) : LexState :=
  let k := runLength p (l.input.drop l.pos)
  { l with pos := l.pos + k, width := if l.pos + k < l.input.length then 1 else 0 }

/-- acceptRun of lexer.go: consumes runes while they are in the valid set. -/
def acceptRun (valid : List Nat) (l : LexState) : LexState :=
  scanWhile (fun c => valid.contains c) l

/-- The slice input from start to pos, the literal text emit sends. -/
def sliceLit (l : LexState) : List Nat :=
  (l.input.drop l.start).take (l.pos - l.start)

/-- emit of lexer.go: sends the token with the current slice as literal and
start as position, then moves start up to pos. -/
def emit (typ : TokenType) (l : LexState) : Token × LexState :=
  (⟨typ, sliceLit l, l.start⟩, { l with start := l.pos })

/-- errorf of lexer.go: sends an ILLEGAL token whose literal is the formatted
message embedding the offending rune, positioned at start, and stops. The
rune 39 is the apostrophe the format string quotes the character with. -/
def errorf (c : Nat) (l : LexState) : Token :=
  ⟨.ILLEGAL, strRunes "Unrecognised character in source unit: " ++ [39, c, 39], l.start⟩

/-- isDigit of lexer.go. -/
def isDigit (c : Nat) : Bool := 48 ≤ c && c ≤ 57

/-- isLetter of lexer.go: ASCII letters and the underscore. -/
def isLetter (c : Nat) : Bool := (97 ≤ c && c ≤ 122) || (65 ≤ c && c ≤ 90) || c == 95

/-- isWhitespace of lexer.go: space, tab, newline, carriage return. -/
def isWhitespace (c : Nat) : Bool := c == 32 || c == 9 || c == 10 || c == 13

/-- The rune class the lexIdentifier loop keeps consuming: letters then
letters or digits. -/
def isIdentChar (c : Nat) : Bool := isLetter c || isDigit c

/-- switch2 of lexer.go. -/
def switch2 (tkn0 tkn1 : TokenType) (l : LexState) : TokenType × LexState :=
  match accept [61] l with
  | (true, l1) => (tkn1, l1)
  | (false, l1) => (tkn0, l1)

/-- switch3 of lexer.go. -/
def switch3 (tkn0 tkn1 : TokenType) (ch : Nat) (tkn2 : TokenType) (l : LexState) :
    TokenType × LexState :=
  match accept [61] l with
  | (true, l1) => (tkn1, l1)
  | (false, l1) =>
    match accept [ch] l1 with
    | (true, l2) => (tkn2, l2)
    | (false, l2) => (tkn0, l2)

/-- switch4 of lexer.go. -/
def switch4 (tkn0 tkn1 : TokenType) (ch : Nat) (tkn2 tkn3 : TokenType) (l : LexState) :
    TokenType × LexState :=
  match accept [61] l with
  | (true, l1) => (tkn1, l1)
  | (false, l1) =>
    match accept [ch] l1 with
    | (true, l2) =>
      match accept [61] l2 with
      | (true, l3) => (tkn3, l3)
      | (false, l3) => (tkn2, l3)
    | (false, l2) => (tkn0, l2)

/-- The digit alphabets of lexNumber. -/
def decDigits : List Nat := strRunes "0123456789"

/-- The extended alphabet lexNumber switches to after a 0x prefix. -/
def hexDigits : List Nat := strRunes "0123456789abcdefABCDEF"

/-- lexNumber of lexer.go, as the state transformation it performs before
emitting: optional sign, optional 0x prefix switching to hex digits, the
digit run, and an optional decimal exponent. Returns the kind it emits. -/
def lexNumberScan (l : LexState) : TokenType × LexState :=
  let s1 := (accept (strRunes "+-") l).2
  let r0 := accept (strRunes "0") s1
  let rx := if r0.1 then accept (strRunes "x") r0.2 else (false, r0.2)
  let hex := rx.1
  let digits := if hex then hexDigits else decDigits
  let s2 := acceptRun digits rx.2
  let re := accept (strRunes "eE") s2
  let s3 :=
    if re.1 then acceptRun decDigits (accept (strRunes "+-") re.2).2
    else re.2
  (if hex then TokenType.HEX_NUMBER else TokenType.DECIMAL_NUMBER, s3)

/-- One element of the scan output: an emitted token, or a whitespace run the
scanner skipped (recorded with the offset and text that ignore discards, so
that coverage of the input can be stated). -/
inductive Item where
  | tok (t : Token)
  | ws (pos : Nat) (text : List Nat)
  deriving DecidableEq

/-- ignore of lexer.go: moves start up to pos; the item records the skipped
slice. -/
def ignoreItem (l : LexState) : Item × LexState :=
  (Item.ws l.start (sliceLit l), { l with start := l.pos })

/-- Emit a token and continue with the rest of the scan. -/
def emitAndGo (typ : TokenType) (l : LexState) (k : LexState → List Item) : List Item :=
  let r := emit typ l
  Item.tok r.1 :: k r.2

/-- lexSourceUnit of lexer.go, together with the lexIdentifier and lexNumber
states it transitions to, as one fuel indexed loop: each main loop iteration
consumes one unit of fuel, and the two sub states are inlined as the scans
they perform before returning to the main state. The rune 0 is the eof
constant the Go code compares against, so a NUL rune in the input takes the
end of input branch exactly as in the source. Rune codes in the branches:
59 is the semicolon, 123 and 125 the braces, 40 and 41 the parentheses,
91 and 93 the brackets, 46 the period, 33 the exclamation mark, 61 the
equals sign, 43 the plus, 45 the minus, 60 and 62 the angle brackets. -/
def lexRun : Nat → LexState → List Item
  | 0, _ => []
  | fuel + 1, l =>
    let r := readChar l
    let c := r.1
    let l1 := r.2
    if c = 0 then
      [Item.tok (emit .EOF l1).1]
    else if isWhitespace c then
      let iw := ignoreItem l1
      iw.1 :: lexRun fuel iw.2
    else if isLetter c then
      let l2 := scanWhile isIdentChar (backup l1)
      emitAndGo (LookupIdent (sliceLit l2)) l2 (lexRun fuel)
    else if isDigit c then
      let nr := lexNumberScan (backup l1)
      emitAndGo nr.1 nr.2 (lexRun fuel)
    else if c = 59 then emitAndGo .SEMICOLON l1 (lexRun fuel)
    else if c = 123 then emitAndGo .LBRACE l1 (lexRun fuel)
    else if c = 125 then emitAndGo .RBRACE l1 (lexRun fuel)
    else if c = 40 then emitAndGo .LPAREN l1 (lexRun fuel)
    else if c = 41 then emitAndGo .RPAREN l1 (lexRun fuel)
    else if c = 91 then emitAndGo .LBRACKET l1 (lexRun fuel)
    else if c = 93 then emitAndGo .RBRACKET l1 (lexRun fuel)
    else if c = 46 then emitAndGo .PERIOD l1 (lexRun fuel)
    else if c = 33 then
      let sr := switch2 .NOT .NOT_EQUAL l1
      emitAndGo sr.1 sr.2 (lexRun fuel)
    else if c = 61 then
      let sr := switch3 .ASSIGN .EQUAL 62 .DOUBLE_ARROW l1
      emitAndGo sr.1 sr.2 (lexRun fuel)
    else if c = 43 then
      let sr := switch3 .ADD .ASSIGN_ADD 43 .INC l1
      emitAndGo sr.1 sr.2 (lexRun fuel)
    else if c = 45 then
      let ra := accept [62] l1
      if ra.1 then emitAndGo .RIGHT_ARROW ra.2 (lexRun fuel)
      else
        let sr := switch3 .SUB .ASSIGN_SUB 45 .DEC ra.2
        emitAndGo sr.1 sr.2 (lexRun fuel)
    else if c = 60 then
      let sr := switch4 .LESS_THAN .LESS_THAN_OR_EQUAL 60 .SHL .ASSIGN_SHL l1
      emitAndGo sr.1 sr.2 (lexRun fuel)
    else if c = 62 then
      let ra := accept [61] l1
      if ra.1 then emitAndGo .GREATER_THAN_OR_EQUAL ra.2 (lexRun fuel)
      else
        let rb := accept [62] ra.2
        if rb.1 then
          let sr := switch4 .SAR .ASSIGN_SAR 62 .SHR .ASSIGN_SHR rb.2
          emitAndGo sr.1 sr.2 (lexRun fuel)
        else emitAndGo .GREATER_THAN rb.2 (lexRun fuel)
    else
      [Item.tok (errorf c l1)]

/-- The lexer state Lex builds for an input. -/
def initLex (src : List Nat) : LexState := ⟨src, 0, 0, 0⟩

/-- The full item sequence of a scan. The fuel bound length plus one is
sufficient, which the adequacy lemmas below establish. -/
def lexItems (src : List Nat) : List Item :=
  lexRun (src.length + 1) (initLex src)

/-- The token view of an item list, dropping the whitespace records. -/
def itemToken : Item → Option Token
  | .tok t => some t
  | .ws _ _ => none

/-- The token sequence the lexer delivers over its channel for an input. -/
def lexTokens (src : List Nat) : List Token :=
  (lexItems src).filterMap itemToken

/- The channel of the Go lexer, seen from the consumer after the producer has
finished: the not yet delivered tokens, in order, followed by the closed
channel. The producer always terminates (the fuel adequacy lemmas below), so
a pull never has to wait and the stream is just this list. -/

/-- The state of the token stream handle a consumer holds. -/
structure TokenStream where
  remaining : List Token
  deriving DecidableEq

/-- NextToken of lexer.go: deliver the next token of the stream; once the
channel is closed and drained, a receive carries no token. The spec defines
pulls after the terminal token as no token available, which the Go caller
observes as the zero value of a receive from the closed channel. -/
def NextToken (s : TokenStream) : Option Token × TokenStream :=
  match s.remaining with
  | [] => (none, s)
  | t :: ts => (some t, ⟨ts⟩)

/-- The outcome of the nth pull (counting from 0) on a stream. -/
def pullAt (s : TokenStream) : Nat → Option Token
  | 0 => (NextToken s).1
  | n + 1 => pullAt (NextToken s).2 n

/- The parser package. Its AST node records (the declaration section of
src/ast/ast.go is not under src) and its ErrorList are modelled from the
spec; the parser functions themselves are translated from the source. -/

/-- Identifier of src/ast/ast.go. -/
structure Identifier where
  namePos : Nat
  name : List Nat
  deriving DecidableEq

/-- ElementaryType of src/ast/ast.go: position, the originating token, and
its text. -/
structure ElementaryType where
  valuePos : Nat
  kind : Token
  value : List Nat
  deriving DecidableEq

/-- Modelled from the spec: Param carries the parameter name; the parameter
type is an explicit known gap. -/
structure Param where
  name : Identifier
  deriving DecidableEq

/-- Modelled from the spec: ParamList carries the opening and closing
positions and the ordered parameters. -/
structure ParamList where
  opening : Nat
  closing : Nat
  list : List Param
  deriving DecidableEq

/-- Modelled from the spec: FunctionType carries the position of the function
keyword and the parameter list. -/
structure FunctionType where
  func : Nat
  params : ParamList
  deriving DecidableEq

/-- Modelled from the spec: VariableDeclaration carries its elementary type
and its name. -/
structure VariableDeclaration where
  type : ElementaryType
  name : Identifier
  deriving DecidableEq

/-- Modelled from the spec: FunctionDeclaration carries its name and its
function type. -/
structure FunctionDeclaration where
  name : Identifier
  type : FunctionType
  deriving DecidableEq

/-- The Declaration sum the parser produces, as the tagged union the spec
sanctions for the node interface. -/
inductive Declaration where
  | varDecl (v : VariableDeclaration)
  | funDecl (f : FunctionDeclaration)
  deriving DecidableEq

/-- File of src/ast/ast.go: the ordered top level declarations. -/
structure File where
  declarations : List Declaration
  deriving DecidableEq

/-- Modelled from the spec: one entry of the ErrorList of the parser package,
a recorded position and message pair. -/
structure Diagnostic where
  pos : Nat
  msg : List Nat
  deriving DecidableEq

/-- Modelled from the spec: the String method of the missing token package
names each kind by its identifier, which is what the diagnostic message
format of the parser interpolates. -/
def tokenTypeString : TokenType → List Nat
  | .ILLEGAL => strRunes "ILLEGAL"
  | .EOF => strRunes "EOF"
  | .IDENTIFIER => strRunes "IDENTIFIER"
  | .CONTRACT => strRunes "CONTRACT"
  | .LIBRARY => strRunes "LIBRARY"
  | .FUNCTION => strRunes "FUNCTION"
  | .ADDRESS => strRunes "ADDRESS"
  | .UINT_256 => strRunes "UINT_256"
  | .BOOL => strRunes "BOOL"
  | .MAPPING => strRunes "MAPPING"
  | .PUBLIC => strRunes "PUBLIC"
  | .CONSTANT => strRunes "CONSTANT"
  | .DECIMAL_NUMBER => strRunes "DECIMAL_NUMBER"
  | .HEX_NUMBER => strRunes "HEX_NUMBER"
  | .SEMICOLON => strRunes "SEMICOLON"
  | .LBRACE => strRunes "LBRACE"
  | .RBRACE => strRunes "RBRACE"
  | .LPAREN => strRunes "LPAREN"
  | .RPAREN => strRunes "RPAREN"
  | .LBRACKET => strRunes "LBRACKET"
  | .RBRACKET => strRunes "RBRACKET"
  | .PERIOD => strRunes "PERIOD"
  | .NOT => strRunes "NOT"
  | .NOT_EQUAL => strRunes "NOT_EQUAL"
  | .ASSIGN => strRunes "ASSIGN"
  | .EQUAL => strRunes "EQUAL"
  | .DOUBLE_ARROW => strRunes "DOUBLE_ARROW"
  | .ADD => strRunes "ADD"
  | .ASSIGN_ADD => strRunes "ASSIGN_ADD"
  | .INC => strRunes "INC"
  | .SUB => strRunes "SUB"
  | .ASSIGN_SUB => strRunes "ASSIGN_SUB"
  | .DEC => strRunes "DEC"
  | .RIGHT_ARROW => strRunes "RIGHT_ARROW"
  | .LESS_THAN => strRunes "LESS_THAN"
  | .LESS_THAN_OR_EQUAL => strRunes "LESS_THAN_OR_EQUAL"
  | .SHL => strRunes "SHL"
  | .ASSIGN_SHL => strRunes "ASSIGN_SHL"
  | .GREATER_THAN => strRunes "GREATER_THAN"
  | .GREATER_THAN_OR_EQUAL => strRunes "GREATER_THAN_OR_EQUAL"
  | .SAR => strRunes "SAR"
  | .ASSIGN_SAR => strRunes "ASSIGN_SAR"
  | .SHR => strRunes "SHR"
  | .ASSIGN_SHR => strRunes "ASSIGN_SHR"

/-- The message peekError formats: expected next token to be t, got the peek
kind instead, at the peek offset. -/
def peekErrorMsg (t got : TokenType) (pos : Nat) : List Nat :=
  strRunes "expected next token to be: " ++ tokenTypeString t ++
    strRunes ", got: " ++ tokenTypeString got ++
    strRunes " instead (at offset: " ++ strRunes (toString pos) ++ strRunes ")"

/-- Modelled from the spec: the zero value of token.Token, which a receive
from the closed token channel yields. With ILLEGAL as the zero kind of the
enumeration its fields are the zero kind, empty text and offset 0. -/
def zeroToken : Token := ⟨.ILLEGAL, [], 0⟩

/-- The Parser record of the parser package: the lexer stream it owns, the
diagnostics recorded so far, and the one token lookahead pair. -/
structure Parser where
  stream : TokenStream
  errors : List Diagnostic
  currTkn : Token
  peekTkn : Token
  deriving DecidableEq

/-- nextToken of the parser: shift peek into curr and pull the next token,
a pull on the closed channel yielding the zero token. -/
def nextToken (p : Parser) : Parser :=
  let r := NextToken p.stream
  { p with currTkn := p.peekTkn, peekTkn := r.1.getD zeroToken, stream := r.2 }

/-- peekError of the parser: records the expectation diagnostic at the peek
position. -/
def peekError (t : TokenType) (p : Parser) : Parser :=
  { p with errors :=
      p.errors ++ [⟨p.peekTkn.pos, peekErrorMsg t p.peekTkn.type p.peekTkn.pos⟩] }

/-- expectPeek of the parser: advance on a match, record a diagnostic and
stay put otherwise. -/
def expectPeek (t : TokenType) (p : Parser) : Bool × Parser :=
  if p.peekTkn.type = t then (true, nextToken p) else (false, peekError t p)

/-- The scan to a semicolon both declaration parsers end with: advance,
discarding tokens, until the current token is a SEMICOLON. The loop in the
source has no other exit, so it is fuel indexed; exhausted fuel returns
nothing, and the divergence theorem below shows no fuel suffices for inputs
in which the semicolon never arrives. -/
def scanToSemicolon : Nat → Parser → Option Parser
  | 0, _ => none
  | n + 1, p =>
    if p.currTkn.type = .SEMICOLON then some p
    else scanToSemicolon n (nextToken p)

/-- The parameter list loop of parseFunctionDeclaration: until the current
token is RPAREN, expect an IDENTIFIER after the current token and append a
Param for it. The inner Option is the nil return of the source on an
expectation failure; the outer one is fuel exhaustion. -/
def parseParams : Nat → Parser → List Param → Option (Option (List Param) × Parser)
  | 0, _, _ => none
  | n + 1, p, acc =>
    if p.currTkn.type = .RPAREN then some (some acc, p)
    else
      match expectPeek .IDENTIFIER p with
      | (false, p1) => some (none, p1)
      | (true, p1) =>
        parseParams n (nextToken p1) (acc ++ [⟨⟨p1.currTkn.pos, p1.currTkn.literal⟩⟩])

/-- parseVariableDeclaration of the parser package. -/
def parseVariableDeclaration (fuel : Nat) (p : Parser) :
    Option (Option Declaration × Parser) :=
  let typ : ElementaryType := ⟨p.currTkn.pos, p.currTkn, p.currTkn.literal⟩
  match expectPeek .IDENTIFIER p with
  | (false, p1) => some (none, p1)
  | (true, p1) =>
    let name : Identifier := ⟨p1.currTkn.pos, p1.currTkn.literal⟩
    match scanToSemicolon fuel p1 with
    | none => none
    | some p2 => some (some (.varDecl ⟨typ, name⟩), p2)

/-- parseFunctionDeclaration of the parser package. -/
def parseFunctionDeclaration (fuel : Nat) (p : Parser) :
    Option (Option Declaration × Parser) :=
  let funcPos := p.currTkn.pos
  match expectPeek .IDENTIFIER p with
  | (false, p1) => some (none, p1)
  | (true, p1) =>
    let name : Identifier := ⟨p1.currTkn.pos, p1.currTkn.literal⟩
    match expectPeek .LPAREN p1 with
    | (false, p2) => some (none, p2)
    | (true, p2) =>
      let opening := p2.currTkn.pos
      match parseParams fuel (nextToken p2) [] with
      | none => none
      | some (none, p3) => some (none, p3)
      | some (some list, p3) =>
        let closing := p3.currTkn.pos
        match scanToSemicolon fuel p3 with
        | none => none
        | some p4 =>
          some (some (.funDecl ⟨name, ⟨funcPos, ⟨opening, closing, list⟩⟩⟩), p4)

/-- parseDeclaration of the parser package: dispatch on the current token
kind; anything unrecognized yields no node. -/
def parseDeclaration (fuel : Nat) (p : Parser) : Option (Option Declaration × Parser) :=
  match p.currTkn.type with
  | .ADDRESS => parseVariableDeclaration fuel p
  | .UINT_256 => parseVariableDeclaration fuel p
  | .BOOL => parseVariableDeclaration fuel p
  | .FUNCTION => parseFunctionDeclaration fuel p
  | _ => some (none, p)

/-- The top level loop of ParseFile: while the current token is not EOF,
parse one declaration, append it when one was produced, advance one token. -/
def parseFileLoop : Nat → Parser → List Declaration → Option (List Declaration × Parser)
  | 0, _, _ => none
  | n + 1, p, acc =>
    if p.currTkn.type = .EOF then some (acc, p)
    else
      match parseDeclaration n p with
      | none => none
      | some (some d, p1) => parseFileLoop n (nextToken p1) (acc ++ [d])
      | some (none, p1) => parseFileLoop n (nextToken p1) acc

/-- init of the parser package: a fresh lexer stream for the source and two
token pulls to fill the lookahead pair. -/
def initParser (src : List Nat) : Parser :=
  nextToken (nextToken ⟨⟨lexTokens src⟩, [], zeroToken, zeroToken⟩)

/-- ParseFile of the parser package, fuel indexed: the File of top level
declarations together with the diagnostic list of the parser instance, per
the interface the spec gives for ParseFile. -/
def ParseFile (fuel : Nat) (src : List Nat) : Option (File × List Diagnostic) :=
  match parseFileLoop fuel (initParser src) [] with
  | none => none
  | some (decls, p) => some (⟨decls⟩, p.errors)

/- Derived definitions the claim statements use. -/

/-- The source text lexes as exactly one token of the given kind followed by
EOF, with the whole text as the token literal. -/
def lexesAsOne (s : String) (k : TokenType) : Prop :=
  lexTokens (strRunes s) = [⟨k, strRunes s, 0⟩, ⟨.EOF, [], (strRunes s).length⟩]

/-- The text an item contributes to the input: the literal of an emitted
token, or the whitespace run the scanner skipped. -/
def itemText : Item → List Nat
  | .tok t => t.literal
  | .ws _ w => w

/-- Concatenation of the texts of all items, in emission order: the emitted
literals with the skipped whitespace runs reinserted where they occurred. -/
def concatText (items : List Item) : List Nat :=
  (items.map itemText).flatten

/-- A terminal token: EOF or ILLEGAL. -/
def isTerminal (t : Token) : Prop := t.type = .EOF ∨ t.type = .ILLEGAL

instance (t : Token) : Decidable (isTerminal t) := by
  unfold isTerminal; infer_instance

/-- Facts every scanning helper of the lexer preserves: the input and the
start marker are untouched, the position never moves back, and it never moves
past the end of the input. -/
def StateStep (l l2 : LexState) : Prop :=
  l2.input = l.input ∧ l2.start = l.start ∧ l.pos ≤ l2.pos ∧
    l2.pos ≤ max l.pos l.input.length

/-- The shape every completed scan has, stated from a state at offset pos of
the given input: the items end in exactly one terminal token; no earlier
token is terminal; when the input has no NUL rune, either the terminal is
ILLEGAL or the item texts concatenate to the rest of the input; and every
non ILLEGAL token stays inside the input. -/
def LexOutputOK (input : List Nat) (pos : Nat) (items : List Item) : Prop :=
  ∃ pre t, items = pre ++ [Item.tok t] ∧ isTerminal t ∧
    (∀ u, Item.tok u ∈ pre → ¬ isTerminal u) ∧
    ((¬ 0 ∈ input) → t.type = .ILLEGAL ∨ concatText items = input.drop pos) ∧
    (∀ u, Item.tok u ∈ items → ¬ u.type = .ILLEGAL →
      u.pos + u.literal.length ≤ input.length)

/-- The parser state reached on the input of the divergence theorem once the
name x has been bound: sitting on the identifier, EOF in the lookahead, the
stream drained. -/
def missingSemiP1 : Parser := ⟨⟨[]⟩, [], ⟨.IDENTIFIER, strRunes "x", 8⟩, ⟨.EOF, [], 9⟩⟩

/-- One advance later: sitting on EOF, the closed channel yielding the zero
token as lookahead. -/
def missingSemiP2 : Parser := ⟨⟨[]⟩, [], ⟨.EOF, [], 9⟩, zeroToken⟩

/-- Two advances later: both lookahead slots hold the zero token; advancing
again leaves the state unchanged, so the semicolon scan can never end. -/
def missingSemiP3 : Parser := ⟨⟨[]⟩, [], zeroToken, zeroToken⟩

/-- A run that completed within some fuel completes identically with more. -/
lemma scanToSemicolon_mono (n : Nat) (p : Parser) (q : Parser) (m : Nat) (hnm : n ≤ m)
    (h : scanToSemicolon n p = some q) : scanToSemicolon m p = some q := by
  induction n generalizing p m with
  | zero => simp [scanToSemicolon] at h
  | succ n ih =>
    obtain ⟨m, rfl⟩ : ∃ k, m = k + 1 := ⟨m - 1, by omega⟩
    rw [scanToSemicolon] at h ⊢
    by_cases hc : p.currTkn.type = .SEMICOLON
    · rw [if_pos hc] at h ⊢; exact h
    · rw [if_neg hc] at h ⊢
      exact ih (nextToken p) m (by omega) h

/-- Fuel monotonicity of the parameter list loop. -/
lemma parseParams_mono (n : Nat) (p : Parser) (acc : List Param)
    (r : Option (List Param) × Parser) (m : Nat) (hnm : n ≤ m)
    (h : parseParams n p acc = some r) : parseParams m p acc = some r := by
  induction n generalizing p acc m with
  | zero => simp [parseParams] at h
  | succ n ih =>
    obtain ⟨m, rfl⟩ : ∃ k, m = k + 1 := ⟨m - 1, by omega⟩
    rw [parseParams] at h ⊢
    by_cases hc : p.currTkn.type = .RPAREN
    · rw [if_pos hc] at h ⊢; exact h
    · rw [if_neg hc] at h ⊢
      rcases hep : expectPeek .IDENTIFIER p with ⟨b, p1⟩
      rw [hep] at h
      cases b with
      | false => exact h
      | true => exact ih (nextToken p1) _ m (by omega) h

/-- Fuel monotonicity of parseVariableDeclaration. -/
lemma parseVariableDeclaration_mono (n : Nat) (p : Parser)
    (r : Option Declaration × Parser) (m : Nat) (hnm : n ≤ m)
    (h : parseVariableDeclaration n p = some r) :
    parseVariableDeclaration m p = some r := by
  rw [parseVariableDeclaration] at h ⊢
  rcases hep : expectPeek .IDENTIFIER p with ⟨b, p1⟩
  rw [hep] at h
  cases b with
  | false => exact h
  | true =>
    dsimp only at h ⊢
    rcases hs : scanToSemicolon n p1 with _ | p2
    · rw [hs] at h; exact absurd h (by simp)
    · rw [hs] at h
      rw [scanToSemicolon_mono n p1 p2 m hnm hs]
      exact h

/-- Fuel monotonicity of parseFunctionDeclaration. -/
lemma parseFunctionDeclaration_mono (n : Nat) (p : Parser)
    (r : Option Declaration × Parser) (m : Nat) (hnm : n ≤ m)
    (h : parseFunctionDeclaration n p = some r) :
    parseFunctionDeclaration m p = some r := by
  rw [parseFunctionDeclaration] at h ⊢
  rcases hep : expectPeek .IDENTIFIER p with ⟨b, p1⟩
  rw [hep] at h
  cases b with
  | false => exact h
  | true =>
    dsimp only at h ⊢
    rcases hlp : expectPeek .LPAREN p1 with ⟨b2, p2⟩
    rw [hlp] at h
    cases b2 with
    | false => exact h
    | true =>
      dsimp only at h ⊢
      rcases hpp : parseParams n (nextToken p2) [] with _ | ⟨_ | list, p3⟩
      · rw [hpp] at h; exact absurd h (by simp)
      · rw [hpp] at h
        rw [parseParams_mono n (nextToken p2) [] _ m hnm hpp]
        exact h
      · rw [hpp] at h
        rw [parseParams_mono n (nextToken p2) [] _ m hnm hpp]
        dsimp only at h ⊢
        rcases hs : scanToSemicolon n p3 with _ | p4
        · rw [hs] at h; exact absurd h (by simp)
        · rw [hs] at h
          rw [scanToSemicolon_mono n p3 p4 m hnm hs]
          exact h

/-- Fuel monotonicity of parseDeclaration. -/
lemma parseDeclaration_mono (n : Nat) (p : Parser)
    (r : Option Declaration × Parser) (m : Nat) (hnm : n ≤ m)
    (h : parseDeclaration n p = some r) : parseDeclaration m p = some r := by
  unfold parseDeclaration at h ⊢
  cases hct : p.currTkn.type <;> rw [hct] at h <;>
    first
      | exact h
      | exact parseVariableDeclaration_mono n p r m hnm h
      | exact parseFunctionDeclaration_mono n p r m hnm h

/-- Fuel monotonicity of the top level loop. -/
lemma parseFileLoop_mono (n : Nat) (p : Parser) (acc : List Declaration)
    (r : List Declaration × Parser) (m : Nat) (hnm : n ≤ m)
    (h : parseFileLoop n p acc = some r) : parseFileLoop m p acc = some r := by
  induction n generalizing p acc m with
  | zero => simp [parseFileLoop] at h
  | succ n ih =>
    obtain ⟨m, rfl⟩ : ∃ k, m = k + 1 := ⟨m - 1, by omega⟩
    rw [parseFileLoop] at h ⊢
    by_cases hc : p.currTkn.type = .EOF
    · rw [if_pos hc] at h ⊢; exact h
    · rw [if_neg hc] at h ⊢
      rcases hd : parseDeclaration n p with _ | ⟨_ | d, p1⟩
      · rw [hd] at h; exact absurd h (by simp)
      · rw [hd] at h
        rw [parseDeclaration_mono n p _ m (by omega) hd]
        exact ih (nextToken p1) acc m (by omega) h
      · rw [hd] at h
        rw [parseDeclaration_mono n p _ m (by omega) hd]
        exact ih (nextToken p1) _ m (by omega) h

/-- Fuel monotonicity of ParseFile. -/
lemma ParseFile_mono (n : Nat) (src : List Nat) (r : File × List Diagnostic)
    (m : Nat) (hnm : n ≤ m) (h : ParseFile n src = some r) : ParseFile m src = some r := by
  rw [ParseFile] at h ⊢
  rcases hl : parseFileLoop n (initParser src) [] with _ | pr
  · rw [hl] at h; exact absurd h (by simp)
  · rw [hl] at h
    rw [parseFileLoop_mono n (initParser src) [] pr m hnm hl]
    exact h

/- The stuck states of the semicolon scan on input without a semicolon. -/

/-- Advancing the fully drained parser changes nothing. -/
lemma missingSemiP3_fixed : nextToken missingSemiP3 = missingSemiP3 := by decide

/-- The semicolon scan never ends from the drained state. -/
lemma scan_missingSemiP3 : ∀ k, scanToSemicolon k missingSemiP3 = none := by
  intro k
  induction k with
  | zero => rfl
  | succ k ih =>
    rw [scanToSemicolon, if_neg (by decide), missingSemiP3_fixed, ih]

/-- The semicolon scan never ends from the EOF state. -/
lemma scan_missingSemiP2 : ∀ k, scanToSemicolon k missingSemiP2 = none := by
  intro k
  cases k with
  | zero => rfl
  | succ k =>
    rw [scanToSemicolon, if_neg (by decide),
      show nextToken missingSemiP2 = missingSemiP3 from by decide]
    exact scan_missingSemiP3 k

/-- The semicolon scan never ends from the identifier state. -/
lemma scan_missingSemiP1 : ∀ k, scanToSemicolon k missingSemiP1 = none := by
  intro k
  cases k with
  | zero => rfl
  | succ k =>
    rw [scanToSemicolon, if_neg (by decide),
      show nextToken missingSemiP1 = missingSemiP2 from by decide]
    exact scan_missingSemiP2 k

/-- Claim C1. Stated as the claim asserts it, ParseFile would return a File
for the input uint256 x, whose variable declaration is never followed by a
SEMICOLON token. The code instead never completes on that input: after the
token stream is drained the semicolon scan keeps pulling the zero token of
the closed channel, which is never a SEMICOLON, so the big step relation
yields no result at any fuel. -/
theorem parseFile_missing_semicolon_never_completes :
    ∀ n : Nat, ParseFile n (strRunes "uint256 x") = none := by
  intro n
  cases n with
  | zero => rfl
  | succ n =>
    have hinit : initParser (strRunes "uint256 x") =
        ⟨⟨[⟨.EOF, [], 9⟩]⟩, [], ⟨.UINT_256, strRunes "uint256", 0⟩,
          ⟨.IDENTIFIER, strRunes "x", 8⟩⟩ := by decide
    have hvd : parseVariableDeclaration n
        ⟨⟨[⟨.EOF, [], 9⟩]⟩, [], ⟨.UINT_256, strRunes "uint256", 0⟩,
          ⟨.IDENTIFIER, strRunes "x", 8⟩⟩ = none := by
      rw [parseVariableDeclaration,
        show expectPeek .IDENTIFIER
          ⟨⟨[⟨.EOF, [], 9⟩]⟩, [], ⟨.UINT_256, strRunes "uint256", 0⟩,
            ⟨.IDENTIFIER, strRunes "x", 8⟩⟩ = (true, missingSemiP1) from by decide]
      dsimp only
      rw [scan_missingSemiP1 n]
    have hd : parseDeclaration n
        ⟨⟨[⟨.EOF, [], 9⟩]⟩, [], ⟨.UINT_256, strRunes "uint256", 0⟩,
          ⟨.IDENTIFIER, strRunes "x", 8⟩⟩ = none := hvd
    have hloop : parseFileLoop (n + 1)
        ⟨⟨[⟨.EOF, [], 9⟩]⟩, [], ⟨.UINT_256, strRunes "uint256", 0⟩,
          ⟨.IDENTIFIER, strRunes "x", 8⟩⟩ [] = none := by
      rw [parseFileLoop, if_neg (by decide), hd]
    rw [ParseFile, hinit, hloop]

/-- Claim C2: maximal munch. Each multi character operator of the lexer, fed
as a source text, is emitted as one single token of the corresponding kind
covering the whole text, never as several shorter tokens. -/
theorem lexer_maximal_munch :
    lexesAsOne "==" .EQUAL ∧
    lexesAsOne "=>" .DOUBLE_ARROW ∧
    lexesAsOne "+=" .ASSIGN_ADD ∧
    lexesAsOne "++" .INC ∧
    lexesAsOne "-=" .ASSIGN_SUB ∧
    lexesAsOne "--" .DEC ∧
    lexesAsOne "->" .RIGHT_ARROW ∧
    lexesAsOne "!=" .NOT_EQUAL ∧
    lexesAsOne "<=" .LESS_THAN_OR_EQUAL ∧
    lexesAsOne "<<" .SHL ∧
    lexesAsOne "<<=" .ASSIGN_SHL ∧
    lexesAsOne ">=" .GREATER_THAN_OR_EQUAL ∧
    lexesAsOne ">>" .SAR ∧
    lexesAsOne ">>>" .SHR ∧
    lexesAsOne ">>=" .ASSIGN_SAR ∧
    lexesAsOne ">>>=" .ASSIGN_SHR := by
  unfold lexesAsOne
  decide

/-- Claim C7: ParseFile on the function declaration example yields exactly
one FunctionDeclaration named deposit whose parameter list holds exactly the
one parameter amount, for every sufficient fuel. -/
theorem parseFile_function_deposit :
    ∀ n : Nat, 16 ≤ n →
      ParseFile n
        (strRunes
          "function deposit(uint256 amount) public { balances[msg.sender] += amount; }") =
      some (⟨[.funDecl ⟨⟨9, strRunes "deposit"⟩,
        ⟨0, ⟨16, 31, [⟨⟨25, strRunes "amount"⟩⟩]⟩⟩⟩]⟩, []) := by
  intro n hn
  exact ParseFile_mono 16 _ _ n hn (by decide)

/-- Witness for claim C7 at fuel 16. -/
theorem parseFile_function_deposit_witness :
    ParseFile 16
      (strRunes
        "function deposit(uint256 amount) public { balances[msg.sender] += amount; }") =
    some (⟨[.funDecl ⟨⟨9, strRunes "deposit"⟩,
      ⟨0, ⟨16, 31, [⟨⟨25, strRunes "amount"⟩⟩]⟩⟩⟩]⟩, []) :=
  parseFile_function_deposit 16 (by decide)

/-- Claim C8: ParseFile on uint256 x; yields one VariableDeclaration with
type value uint256 and name x, and an empty diagnostic list, for every
sufficient fuel. -/
theorem parseFile_uint256_x :
    ∀ n : Nat, 8 ≤ n →
      ParseFile n (strRunes "uint256 x;") =
      some (⟨[.varDecl ⟨⟨0, ⟨.UINT_256, strRunes "uint256", 0⟩, strRunes "uint256"⟩,
        ⟨8, strRunes "x"⟩⟩]⟩, []) := by
  intro n hn
  exact ParseFile_mono 8 _ _ n hn (by decide)

/-- Witness for claim C8 at fuel 8. -/
theorem parseFile_uint256_x_witness :
    ParseFile 8 (strRunes "uint256 x;") =
    some (⟨[.varDecl ⟨⟨0, ⟨.UINT_256, strRunes "uint256", 0⟩, strRunes "uint256"⟩,
      ⟨8, strRunes "x"⟩⟩]⟩, []) :=
  parseFile_uint256_x 8 (by decide)

/-- Claim C9: ParseFile on the malformed uint256 ; records exactly one
diagnostic, positioned at the semicolon (offset 8) and citing the expected
IDENTIFIER, and the File has no declaration for the construct. -/
theorem parseFile_uint256_missing_identifier :
    ∀ n : Nat, 8 ≤ n →
      ParseFile n (strRunes "uint256 ;") =
        some (⟨[]⟩, [⟨8, peekErrorMsg .IDENTIFIER .SEMICOLON 8⟩]) ∧
      List.IsInfix (strRunes "IDENTIFIER") (peekErrorMsg .IDENTIFIER .SEMICOLON 8) := by
  intro n hn
  refine ⟨ParseFile_mono 8 _ _ n hn (by decide), ?_⟩
  exact ⟨strRunes "expected next token to be: ", strRunes ", got: SEMICOLON instead (at offset: 8)", by decide⟩

/-- Witness for claim C9 at fuel 8. -/
theorem parseFile_uint256_missing_identifier_witness :
    ParseFile 8 (strRunes "uint256 ;") =
      some (⟨[]⟩, [⟨8, peekErrorMsg .IDENTIFIER .SEMICOLON 8⟩]) ∧
    List.IsInfix (strRunes "IDENTIFIER") (peekErrorMsg .IDENTIFIER .SEMICOLON 8) :=
  parseFile_uint256_missing_identifier 8 (by decide)

/-- Claim C10: the parameter list loop passes over the current token and
expects an IDENTIFIER after it, so a one token parameter list fails: on
function f(x); the parser records an expected IDENTIFIER diagnostic at the
closing parenthesis (offset 12) and produces no FunctionDeclaration. -/
theorem parseFile_single_identifier_param :
    ∀ n : Nat, 8 ≤ n →
      ParseFile n (strRunes "function f(x);") =
        some (⟨[]⟩, [⟨12, peekErrorMsg .IDENTIFIER .RPAREN 12⟩]) := by
  intro n hn
  exact ParseFile_mono 8 _ _ n hn (by decide)

/-- Witness for claim C10 at fuel 8. -/
theorem parseFile_single_identifier_param_witness :
    ParseFile 8 (strRunes "function f(x);") =
      some (⟨[]⟩, [⟨12, peekErrorMsg .IDENTIFIER .RPAREN 12⟩]) :=
  parseFile_single_identifier_param 8 (by decide)

lemma stateStep_rfl (l : LexState) : StateStep l l :=
  ⟨rfl, rfl, le_rfl, le_max_left _ _⟩

lemma stateStep_trans {l1 l2 l3 : LexState} (h1 : StateStep l1 l2) (h2 : StateStep l2 l3) :
    StateStep l1 l3 := by
  obtain ⟨a1, b1, c1, d1⟩ := h1
  obtain ⟨a2, b2, c2, d2⟩ := h2
  rw [a1] at d2
  exact ⟨a2.trans a1, b2.trans b1, c1.trans c2, by omega⟩

lemma readChar_of_lt (l : LexState) (h : l.pos < l.input.length) :
    readChar l = (l.input.getD l.pos 0, { l with width := 1, pos := l.pos + 1 }) := by
  rw [readChar, if_neg (by omega)]

lemma readChar_of_ge (l : LexState) (h : l.input.length ≤ l.pos) :
    readChar l = (0, { l with width := 0 }) := by
  rw [readChar, if_pos h]

lemma pos_lt_of_readChar_ne_zero (l : LexState) (h : ¬ (readChar l).1 = 0) :
    l.pos < l.input.length := by
  by_contra hc
  rw [readChar_of_ge l (by omega)] at h
  exact h rfl

lemma accept_step (v : List Nat) (l : LexState) : StateStep l (accept v l).2 := by
  unfold accept
  by_cases h : l.input.length ≤ l.pos
  · rw [readChar_of_ge l h]
    dsimp only
    unfold StateStep backup
    split <;> (simp; try omega)
  · rw [readChar_of_lt l (by omega)]
    dsimp only
    unfold StateStep backup
    split <;> (simp; try omega)

lemma runLength_le (p : Nat → Bool) (xs : List Nat) : runLength p xs ≤ xs.length := by
  induction xs with
  | nil => simp [runLength]
  | cons c cs ih =>
    simp only [runLength]
    split <;> (simp; try omega)

lemma scanWhile_pos (p : Nat → Bool) (l : LexState) :
    (scanWhile p l).pos = l.pos + runLength p (l.input.drop l.pos) := rfl

lemma scanWhile_step (p : Nat → Bool) (l : LexState) : StateStep l (scanWhile p l) := by
  refine ⟨rfl, rfl, by simp [scanWhile], ?_⟩
  have h := runLength_le p (l.input.drop l.pos)
  rw [List.length_drop] at h
  simp only [scanWhile]
  omega

lemma scanWhile_advance (p : Nat → Bool) (l : LexState) (h : l.pos < l.input.length)
    (hp : p (l.input.getD l.pos 0) = true) : l.pos < (scanWhile p l).pos := by
  rw [scanWhile_pos, List.drop_eq_getElem_cons h]
  rw [List.getD_eq_getElem l.input 0 h] at hp
  simp only [runLength, hp, if_pos]
  omega

lemma backup_readChar (l : LexState) (h : l.pos < l.input.length) :
    backup (readChar l).2 = { l with width := 1 } := by
  rw [readChar_of_lt l h]
  simp [backup]

lemma switch2_step (a b : TokenType) (l : LexState) : StateStep l (switch2 a b l).2 := by
  unfold switch2
  rcases hA : accept [61] l with ⟨bb, l1⟩
  have h := accept_step [61] l
  rw [hA] at h
  cases bb <;> dsimp only <;> exact h

lemma switch2_type (a b : TokenType) (l : LexState) :
    (switch2 a b l).1 = a ∨ (switch2 a b l).1 = b := by
  unfold switch2
  rcases hA : accept [61] l with ⟨bb, l1⟩
  cases bb
  · exact Or.inl rfl
  · exact Or.inr rfl

lemma switch3_step (a b : TokenType) (ch : Nat) (d : TokenType) (l : LexState) :
    StateStep l (switch3 a b ch d l).2 := by
  unfold switch3
  rcases hA : accept [61] l with ⟨b1, l1⟩
  have h1 := accept_step [61] l
  rw [hA] at h1
  cases b1
  · dsimp only
    rcases hB : accept [ch] l1 with ⟨b2, l2⟩
    have h2 := accept_step [ch] l1
    rw [hB] at h2
    cases b2 <;> dsimp only <;> exact stateStep_trans h1 h2
  · exact h1

lemma switch3_type (a b : TokenType) (ch : Nat) (d : TokenType) (l : LexState) :
    (switch3 a b ch d l).1 = a ∨ (switch3 a b ch d l).1 = b ∨ (switch3 a b ch d l).1 = d := by
  unfold switch3
  rcases hA : accept [61] l with ⟨b1, l1⟩
  cases b1
  · dsimp only
    rcases hB : accept [ch] l1 with ⟨b2, l2⟩
    cases b2
    · exact Or.inl rfl
    · exact Or.inr (Or.inr rfl)
  · exact Or.inr (Or.inl rfl)

lemma switch4_step (a b : TokenType) (ch : Nat) (d e : TokenType) (l : LexState) :
    StateStep l (switch4 a b ch d e l).2 := by
  unfold switch4
  rcases hA : accept [61] l with ⟨b1, l1⟩
  have h1 := accept_step [61] l
  rw [hA] at h1
  cases b1
  · dsimp only
    rcases hB : accept [ch] l1 with ⟨b2, l2⟩
    have h2 := accept_step [ch] l1
    rw [hB] at h2
    cases b2
    · exact stateStep_trans h1 h2
    · dsimp only
      rcases hC : accept [61] l2 with ⟨b3, l3⟩
      have h3 := accept_step [61] l2
      rw [hC] at h3
      cases b3 <;> dsimp only <;> exact stateStep_trans h1 (stateStep_trans h2 h3)
  · exact h1

lemma switch4_type (a b : TokenType) (ch : Nat) (d e : TokenType) (l : LexState) :
    (switch4 a b ch d e l).1 = a ∨ (switch4 a b ch d e l).1 = b ∨
    (switch4 a b ch d e l).1 = d ∨ (switch4 a b ch d e l).1 = e := by
  unfold switch4
  rcases hA : accept [61] l with ⟨b1, l1⟩
  cases b1
  · dsimp only
    rcases hB : accept [ch] l1 with ⟨b2, l2⟩
    cases b2
    · exact Or.inl rfl
    · dsimp only
      rcases hC : accept [61] l2 with ⟨b3, l3⟩
      cases b3
      · exact Or.inr (Or.inr (Or.inl rfl))
      · exact Or.inr (Or.inr (Or.inr rfl))
  · exact Or.inr (Or.inl rfl)

lemma acceptRun_step (v : List Nat) (l : LexState) : StateStep l (acceptRun v l) :=
  scanWhile_step _ l

lemma lexNumberScan_step (l : LexState) : StateStep l (lexNumberScan l).2 := by
  unfold lexNumberScan
  dsimp only
  rcases hr0 : accept (strRunes "0") (accept (strRunes "+-") l).2 with ⟨b0, t0⟩
  have h1 : StateStep l t0 := by
    have ha := accept_step (strRunes "+-") l
    have hb := accept_step (strRunes "0") (accept (strRunes "+-") l).2
    rw [hr0] at hb
    exact stateStep_trans ha hb
  cases b0
  · simp only [Bool.false_eq_true, if_false]
    rcases hre : accept (strRunes "eE") (acceptRun decDigits t0) with ⟨be, te⟩
    have h2 : StateStep l te := by
      have hc := acceptRun_step decDigits t0
      have hd := accept_step (strRunes "eE") (acceptRun decDigits t0)
      rw [hre] at hd
      exact stateStep_trans h1 (stateStep_trans hc hd)
    cases be
    · simp only [Bool.false_eq_true, if_false]
      exact h2
    · simp only [if_true]
      exact stateStep_trans h2
        (stateStep_trans (accept_step (strRunes "+-") te) (acceptRun_step decDigits _))
  · simp only [if_true]
    rcases hrx : accept (strRunes "x") t0 with ⟨bx, tx⟩
    have h2 : StateStep l tx := by
      have hc := accept_step (strRunes "x") t0
      rw [hrx] at hc
      exact stateStep_trans h1 hc
    have htail : ∀ digs : List Nat, StateStep l
        ((if ((accept (strRunes "eE") (acceptRun digs tx)).1 = true) then
          acceptRun decDigits
            (accept (strRunes "+-") (accept (strRunes "eE") (acceptRun digs tx)).2).2
        else (accept (strRunes "eE") (acceptRun digs tx)).2)) := by
      intro digs
      rcases hre : accept (strRunes "eE") (acceptRun digs tx) with ⟨be, te⟩
      have h3 : StateStep l te := by
        have hc := acceptRun_step digs tx
        have hd := accept_step (strRunes "eE") (acceptRun digs tx)
        rw [hre] at hd
        exact stateStep_trans h2 (stateStep_trans hc hd)
      cases be
      · simp only [Bool.false_eq_true, if_false]
        exact h3
      · simp only [if_true]
        exact stateStep_trans h3
          (stateStep_trans (accept_step (strRunes "+-") te) (acceptRun_step decDigits _))
    cases bx
    · simp only [Bool.false_eq_true, if_false]
      exact htail decDigits
    · simp only [if_true]
      exact htail hexDigits

lemma lexNumberScan_type (l : LexState) :
    (lexNumberScan l).1 = .HEX_NUMBER ∨ (lexNumberScan l).1 = .DECIMAL_NUMBER := by
  unfold lexNumberScan
  dsimp only
  rcases accept (strRunes "0") (accept (strRunes "+-") l).2 with ⟨b0, t0⟩
  cases b0
  · simp only [Bool.false_eq_true, if_false]
    exact Or.inr trivial
  · simp only [if_true]
    rcases accept (strRunes "x") t0 with ⟨bx, tx⟩
    cases bx
    · simp only [Bool.false_eq_true, if_false]
      exact Or.inr trivial
    · simp only [if_true]
      exact Or.inl trivial

lemma stateStep_pos_le {l l2 : LexState} (h : StateStep l l2) : l.pos ≤ l2.pos :=
  h.2.2.1

lemma accept_of_not_contains (v : List Nat) (l : LexState) (h : l.pos < l.input.length)
    (hc : v.contains (l.input.getD l.pos 0) = false) :
    accept v l = (false, { l with width := 1 }) := by
  unfold accept
  rw [readChar_of_lt l h]
  dsimp only
  rw [hc]
  simp [backup]

lemma accept_of_contains (v : List Nat) (l : LexState) (h : l.pos < l.input.length)
    (hc : v.contains (l.input.getD l.pos 0) = true) :
    accept v l = (true, { l with width := 1, pos := l.pos + 1 }) := by
  unfold accept
  rw [readChar_of_lt l h]
  dsimp only
  rw [hc]
  simp

lemma contains_decDigits_of_digit (c : Nat) (h48 : 48 ≤ c) (h57 : c ≤ 57) :
    decDigits.contains c = true := by
  rw [show decDigits = [48, 49, 50, 51, 52, 53, 54, 55, 56, 57] from by decide]
  simp
  omega

lemma contains_pm_of_digit (c : Nat) (h48 : 48 ≤ c) :
    (strRunes "+-").contains c = false := by
  rw [show strRunes "+-" = [43, 45] from by decide]
  simp
  omega

lemma contains_zero_of_ne (c : Nat) (h : ¬ c = 48) :
    (strRunes "0").contains c = false := by
  rw [show strRunes "0" = [48] from by decide]
  simp
  omega

lemma lexNumberScan_advance (l : LexState) (h : l.pos < l.input.length)
    (hd : isDigit (l.input.getD l.pos 0) = true) : l.pos < (lexNumberScan l).2.pos := by
  simp only [isDigit, Bool.and_eq_true, decide_eq_true_eq] at hd
  obtain ⟨h48, h57⟩ := hd
  have hpm : accept (strRunes "+-") l = (false, { l with width := 1 }) :=
    accept_of_not_contains _ l h (contains_pm_of_digit _ h48)
  have htail : ∀ (digs : List Nat) (tx : LexState), StateStep (acceptRun digs tx)
      (if ((accept (strRunes "eE") (acceptRun digs tx)).1 = true) then
        acceptRun decDigits
          (accept (strRunes "+-") (accept (strRunes "eE") (acceptRun digs tx)).2).2
      else (accept (strRunes "eE") (acceptRun digs tx)).2) := by
    intro digs tx
    rcases hre : accept (strRunes "eE") (acceptRun digs tx) with ⟨be, te⟩
    have h3 : StateStep (acceptRun digs tx) te := by
      have hdd := accept_step (strRunes "eE") (acceptRun digs tx)
      rw [hre] at hdd
      exact hdd
    cases be
    · simp only [Bool.false_eq_true, if_false]
      exact h3
    · simp only [if_true]
      exact stateStep_trans h3
        (stateStep_trans (accept_step (strRunes "+-") te) (acceptRun_step decDigits _))
  unfold lexNumberScan
  rw [hpm]
  dsimp only
  by_cases h0 : l.input.getD l.pos 0 = 48
  · have h0acc : accept (strRunes "0") { l with width := 1 } =
        (true, { l with width := 1, pos := l.pos + 1 }) :=
      accept_of_contains (strRunes "0") { l with width := 1 } h
        (by
          show (strRunes "0").contains (l.input.getD l.pos 0) = true
          rw [h0, show strRunes "0" = [48] from by decide]
          decide)
    rw [h0acc]
    dsimp only
    simp only [if_true]
    rcases hrx : accept (strRunes "x") { l with width := 1, pos := l.pos + 1 } with ⟨bx, tx⟩
    have h2 : StateStep { l with width := 1, pos := l.pos + 1 } tx := by
      have hc := accept_step (strRunes "x") { l with width := 1, pos := l.pos + 1 }
      rw [hrx] at hc
      exact hc
    have h2pos : l.pos + 1 ≤ tx.pos := stateStep_pos_le h2
    cases bx
    · dsimp only
      simp only [Bool.false_eq_true, if_false]
      have ha := stateStep_pos_le (acceptRun_step decDigits tx)
      have hb := stateStep_pos_le (htail decDigits tx)
      omega
    · dsimp only
      simp only [if_true]
      have ha := stateStep_pos_le (acceptRun_step hexDigits tx)
      have hb := stateStep_pos_le (htail hexDigits tx)
      omega
  · have h0acc : accept (strRunes "0") { l with width := 1 } =
        (false, { l with width := 1 }) :=
      accept_of_not_contains (strRunes "0") { l with width := 1 } h
        (by
          show (strRunes "0").contains (l.input.getD l.pos 0) = false
          exact contains_zero_of_ne _ h0)
    rw [h0acc]
    dsimp only
    simp only [Bool.false_eq_true, if_false]
    have hadv : l.pos < (acceptRun decDigits { l with width := 1 }).pos :=
      scanWhile_advance _ { l with width := 1 } h
        (by
          show decDigits.contains (l.input.getD l.pos 0) = true
          exact contains_decDigits_of_digit _ h48 h57)
    have hb := stateStep_pos_le (htail decDigits { l with width := 1 })
    omega

lemma slice_append_drop (xs : List Nat) (a b : Nat) (hab : a ≤ b) :
    (xs.drop a).take (b - a) ++ xs.drop b = xs.drop a := by
  have h1 : xs.drop b = (xs.drop a).drop (b - a) := by
    rw [List.drop_drop]
    congr 1
    omega
  rw [h1, List.take_append_drop]

lemma concatText_cons (a : Item) (items : List Item) :
    concatText (a :: items) = itemText a ++ concatText items := by
  simp [concatText]

lemma readChar_pos_of_lt (l : LexState) (h : l.pos < l.input.length) :
    ((readChar l).2).pos = l.pos + 1 := by
  rw [readChar_of_lt l h]

lemma readChar_fst_of_lt (l : LexState) (h : l.pos < l.input.length) :
    (readChar l).1 = l.input.getD l.pos 0 := by
  rw [readChar_of_lt l h]

lemma readChar_step (l : LexState) : StateStep l (readChar l).2 := by
  by_cases h : l.input.length ≤ l.pos
  · rw [readChar_of_ge l h]
    exact ⟨rfl, rfl, le_rfl, le_max_left _ _⟩
  · rw [readChar_of_lt l (by omega)]
    refine ⟨rfl, rfl, by dsimp only; omega, ?_⟩
    dsimp only
    simp
    omega

lemma LookupIdent_ne_EOF (s : List Nat) : ¬ LookupIdent s = .EOF := by
  unfold LookupIdent
  split_ifs <;> decide

lemma LookupIdent_ne_ILLEGAL (s : List Nat) : ¬ LookupIdent s = .ILLEGAL := by
  unfold LookupIdent
  split_ifs <;> decide

lemma emitAndGo_ok (fuel : Nat) (typ : TokenType) (l lB : LexState)
    (hstep : StateStep l lB) (hsp : l.start = l.pos) (hp : l.pos ≤ l.input.length)
    (hntypE : ¬ typ = .EOF) (hntypI : ¬ typ = .ILLEGAL)
    (hrec : LexOutputOK lB.input lB.pos (lexRun fuel (emit typ lB).2)) :
    LexOutputOK l.input l.pos (emitAndGo typ lB (lexRun fuel)) := by
  obtain ⟨hinp, hstart, hle, hub⟩ := hstep
  rw [hinp] at hrec
  obtain ⟨pre, t, hitems, hterm, hpre, hcov, hbound⟩ := hrec
  refine ⟨Item.tok (emit typ lB).1 :: pre, t, ?_, hterm, ?_, ?_, ?_⟩
  · rw [emitAndGo, hitems]
    rfl
  · intro u hu
    rcases List.mem_cons.1 hu with hh | hh
    · have : u = (emit typ lB).1 := by injection hh
      rw [this]
      intro hterm2
      rcases hterm2 with h | h
      · exact hntypE h
      · exact hntypI h
    · exact hpre u hh
  · intro hnn
    rcases hcov hnn with h | h
    · exact Or.inl h
    · refine Or.inr ?_
      rw [emitAndGo, concatText_cons, hitems] at *
      rw [h]
      show sliceLit lB ++ l.input.drop lB.pos = l.input.drop l.pos
      unfold sliceLit
      rw [hinp, hstart, hsp]
      exact slice_append_drop l.input l.pos lB.pos hle
  · intro u hu hni
    rw [emitAndGo] at hu
    rcases List.mem_cons.1 hu with hh | hh
    · have : u = (emit typ lB).1 := by injection hh
      rw [this]
      show lB.start + (sliceLit lB).length ≤ l.input.length
      unfold sliceLit
      rw [hinp, hstart, hsp]
      simp [List.length_take, List.length_drop]
      omega
    · exact hbound u hh hni

lemma trivialStep (l : LexState) : StateStep l { l with width := 1 } :=
  ⟨rfl, rfl, le_rfl, le_max_left _ _⟩

lemma advanceStep (l : LexState) (h : l.pos < l.input.length) :
    StateStep l { l with width := 1, pos := l.pos + 1 } := by
  refine ⟨rfl, rfl, by show l.pos ≤ l.pos + 1; omega, ?_⟩
  show l.pos + 1 ≤ max l.pos l.input.length
  simp
  omega

lemma backup_advance (l : LexState) :
    backup { l with width := 1, pos := l.pos + 1 } = { l with width := 1 } := by
  simp [backup]

lemma lexRun_ok : ∀ (fuel : Nat) (l : LexState),
    l.start = l.pos → l.pos ≤ l.input.length →
    l.input.length + 1 ≤ fuel + l.pos →
    LexOutputOK l.input l.pos (lexRun fuel l) := by
  intro fuel
  induction fuel with
  | zero =>
    intro l hsp hp hf
    exfalso
    omega
  | succ fuel ih =>
    intro l hsp hp hf
    rw [lexRun]
    by_cases hlt : l.pos < l.input.length
    case neg =>
      rw [readChar_of_ge l (by omega)]
      dsimp only
      rw [if_pos rfl]
      refine ⟨[], _, rfl, Or.inl rfl, by simp, ?_, ?_⟩
      · intro hnn
        refine Or.inr ?_
        have hpe : l.pos = l.input.length := by omega
        simp [concatText, itemText, emit, sliceLit, hsp, hpe, List.drop_length]
      · intro u hu hni
        simp only [List.mem_singleton, Item.tok.injEq] at hu
        rw [hu]
        show ({ l with width := 0 } : LexState).start +
          (sliceLit { l with width := 0 }).length ≤ l.input.length
        simp [sliceLit, List.length_take, List.length_drop]
        omega
    case pos =>
    rw [readChar_of_lt l hlt]
    dsimp only
    by_cases h1 : l.input.getD l.pos 0 = 0
    · rw [if_pos h1]
      refine ⟨[], _, rfl, Or.inl rfl, by simp, ?_, ?_⟩
      · intro hnn
        exfalso
        apply hnn
        rw [List.getD_eq_getElem l.input 0 hlt] at h1
        rw [← h1]
        exact List.getElem_mem hlt
      · intro u hu hni
        simp only [List.mem_singleton, Item.tok.injEq] at hu
        rw [hu]
        show ({ l with width := 1, pos := l.pos + 1 } : LexState).start +
          (sliceLit { l with width := 1, pos := l.pos + 1 }).length ≤ l.input.length
        simp [sliceLit, List.length_take, List.length_drop]
        omega
    · rw [if_neg h1]
      by_cases h2 : isWhitespace (l.input.getD l.pos 0) = true
      · rw [if_pos h2]
        dsimp only [ignoreItem]
        have hrec : LexOutputOK l.input (l.pos + 1)
            (lexRun fuel { l with width := 1, pos := l.pos + 1, start := l.pos + 1 }) :=
          ih _ rfl (show l.pos + 1 ≤ l.input.length by omega)
            (show l.input.length + 1 ≤ fuel + (l.pos + 1) by omega)
        obtain ⟨pre, t, hitems, hterm, hpre, hcov, hbound⟩ := hrec
        refine ⟨Item.ws ({ l with width := 1, pos := l.pos + 1 } : LexState).start
            (sliceLit { l with width := 1, pos := l.pos + 1 }) :: pre, t, ?_, hterm, ?_, ?_, ?_⟩
        · show Item.ws _ _ :: lexRun fuel _ = _
          rw [show ({ l with width := 1, pos := l.pos + 1, start := l.pos + 1 } : LexState) =
            { ({ l with width := 1, pos := l.pos + 1 } : LexState) with
              start := ({ l with width := 1, pos := l.pos + 1 } : LexState).pos } from rfl] at hitems
          rw [hitems]
          rfl
        · intro u hu
          rcases List.mem_cons.1 hu with hh | hh
          · exact absurd hh (by simp)
          · exact hpre u hh
        · intro hnn
          rcases hcov hnn with h | h
          · exact Or.inl h
          · refine Or.inr ?_
            rw [concatText_cons]
            rw [show ({ l with width := 1, pos := l.pos + 1, start := l.pos + 1 } : LexState) =
              { ({ l with width := 1, pos := l.pos + 1 } : LexState) with
                start := ({ l with width := 1, pos := l.pos + 1 } : LexState).pos } from rfl, h]
            show sliceLit { l with width := 1, pos := l.pos + 1 } ++
              l.input.drop (l.pos + 1) = l.input.drop l.pos
            unfold sliceLit
            dsimp only
            rw [hsp]
            exact slice_append_drop l.input l.pos (l.pos + 1) (by omega)
        · intro u hu hni
          rcases List.mem_cons.1 hu with hh | hh
          · exact absurd hh (by simp)
          · exact hbound u hh hni
      · rw [if_neg h2]
        by_cases h3 : isLetter (l.input.getD l.pos 0) = true
        · rw [if_pos h3, backup_advance]
          have hident : isIdentChar (l.input.getD l.pos 0) = true := by
            unfold isIdentChar
            simp only [h3, Bool.true_or]
          have hstep1 : StateStep { l with width := 1 }
              (scanWhile isIdentChar { l with width := 1 }) := scanWhile_step _ _
          have hstep : StateStep l (scanWhile isIdentChar { l with width := 1 }) :=
            stateStep_trans (trivialStep l) hstep1
          have hadv : l.pos < (scanWhile isIdentChar { l with width := 1 }).pos :=
            scanWhile_advance _ { l with width := 1 } hlt hident
          have hub : (scanWhile isIdentChar { l with width := 1 }).pos ≤
              max l.pos l.input.length := hstep.2.2.2
          refine emitAndGo_ok fuel _ l _ hstep hsp (by omega)
            (LookupIdent_ne_EOF _) (LookupIdent_ne_ILLEGAL _) ?_
          exact ih { scanWhile isIdentChar { l with width := 1 } with
              start := (scanWhile isIdentChar { l with width := 1 }).pos } rfl
            (show (scanWhile isIdentChar { l with width := 1 }).pos ≤
                (scanWhile isIdentChar { l with width := 1 }).input.length
              by rw [hstep.1]; omega)
            (show (scanWhile isIdentChar { l with width := 1 }).input.length + 1 ≤
                fuel + (scanWhile isIdentChar { l with width := 1 }).pos
              by rw [hstep.1]; omega)
        · rw [if_neg h3]
          by_cases h4 : isDigit (l.input.getD l.pos 0) = true
          · rw [if_pos h4, backup_advance]
            have hstep0 := lexNumberScan_step { l with width := 1 }
            have hadv0 := lexNumberScan_advance { l with width := 1 } hlt h4
            have htype0 := lexNumberScan_type { l with width := 1 }
            rcases hnr : lexNumberScan { l with width := 1 } with ⟨ntyp, nst⟩
            rw [hnr] at hstep0 hadv0 htype0
            dsimp only at hstep0 hadv0 htype0 ⊢
            have hstep : StateStep l nst := stateStep_trans (trivialStep l) hstep0
            have hadv : l.pos < nst.pos := hadv0
            have hub : nst.pos ≤ max l.pos l.input.length := hstep.2.2.2
            refine emitAndGo_ok fuel _ l _ hstep hsp (by omega) ?_ ?_ ?_
            · rcases htype0 with h | h <;> rw [h] <;> decide
            · rcases htype0 with h | h <;> rw [h] <;> decide
            · exact ih { nst with start := nst.pos } rfl
                (show nst.pos ≤ nst.input.length by rw [hstep.1]; omega)
                (show nst.input.length + 1 ≤ fuel + nst.pos by rw [hstep.1]; omega)
          · rw [if_neg h4]
            by_cases h5 : l.input.getD l.pos 0 = 59
            · rw [if_pos h5]
              refine emitAndGo_ok fuel _ l _ (advanceStep l hlt) hsp (by omega)
                (by decide) (by decide) ?_
              exact ih { l with width := 1, pos := l.pos + 1, start := l.pos + 1 } rfl
                (show l.pos + 1 ≤ l.input.length by omega)
                (show l.input.length + 1 ≤ fuel + (l.pos + 1) by omega)
            · rw [if_neg h5]
              by_cases h6 : l.input.getD l.pos 0 = 123
              · rw [if_pos h6]
                refine emitAndGo_ok fuel _ l _ (advanceStep l hlt) hsp (by omega)
                  (by decide) (by decide) ?_
                exact ih { l with width := 1, pos := l.pos + 1, start := l.pos + 1 } rfl
                  (show l.pos + 1 ≤ l.input.length by omega)
                  (show l.input.length + 1 ≤ fuel + (l.pos + 1) by omega)
              · rw [if_neg h6]
                by_cases h7 : l.input.getD l.pos 0 = 125
                · rw [if_pos h7]
                  refine emitAndGo_ok fuel _ l _ (advanceStep l hlt) hsp (by omega)
                    (by decide) (by decide) ?_
                  exact ih { l with width := 1, pos := l.pos + 1, start := l.pos + 1 } rfl
                    (show l.pos + 1 ≤ l.input.length by omega)
                    (show l.input.length + 1 ≤ fuel + (l.pos + 1) by omega)
                · rw [if_neg h7]
                  by_cases h8 : l.input.getD l.pos 0 = 40
                  · rw [if_pos h8]
                    refine emitAndGo_ok fuel _ l _ (advanceStep l hlt) hsp (by omega)
                      (by decide) (by decide) ?_
                    exact ih { l with width := 1, pos := l.pos + 1, start := l.pos + 1 } rfl
                      (show l.pos + 1 ≤ l.input.length by omega)
                      (show l.input.length + 1 ≤ fuel + (l.pos + 1) by omega)
                  · rw [if_neg h8]
                    by_cases h9 : l.input.getD l.pos 0 = 41
                    · rw [if_pos h9]
                      refine emitAndGo_ok fuel _ l _ (advanceStep l hlt) hsp (by omega)
                        (by decide) (by decide) ?_
                      exact ih { l with width := 1, pos := l.pos + 1, start := l.pos + 1 } rfl
                        (show l.pos + 1 ≤ l.input.length by omega)
                        (show l.input.length + 1 ≤ fuel + (l.pos + 1) by omega)
                    · rw [if_neg h9]
                      by_cases h10 : l.input.getD l.pos 0 = 91
                      · rw [if_pos h10]
                        refine emitAndGo_ok fuel _ l _ (advanceStep l hlt) hsp (by omega)
                          (by decide) (by decide) ?_
                        exact ih { l with width := 1, pos := l.pos + 1, start := l.pos + 1 } rfl
                          (show l.pos + 1 ≤ l.input.length by omega)
                          (show l.input.length + 1 ≤ fuel + (l.pos + 1) by omega)
                      · rw [if_neg h10]
                        by_cases h11 : l.input.getD l.pos 0 = 93
                        · rw [if_pos h11]
                          refine emitAndGo_ok fuel _ l _ (advanceStep l hlt) hsp (by omega)
                            (by decide) (by decide) ?_
                          exact ih { l with width := 1, pos := l.pos + 1, start := l.pos + 1 } rfl
                            (show l.pos + 1 ≤ l.input.length by omega)
                            (show l.input.length + 1 ≤ fuel + (l.pos + 1) by omega)
                        · rw [if_neg h11]
                          by_cases h12 : l.input.getD l.pos 0 = 46
                          · rw [if_pos h12]
                            refine emitAndGo_ok fuel _ l _ (advanceStep l hlt) hsp (by omega)
                              (by decide) (by decide) ?_
                            exact ih { l with width := 1, pos := l.pos + 1, start := l.pos + 1 } rfl
                              (show l.pos + 1 ≤ l.input.length by omega)
                              (show l.input.length + 1 ≤ fuel + (l.pos + 1) by omega)
                          · rw [if_neg h12]
                            by_cases h13 : l.input.getD l.pos 0 = 33
                            · rw [if_pos h13]
                              have hsw0 := switch2_step .NOT .NOT_EQUAL
                                { l with width := 1, pos := l.pos + 1 }
                              have hty0 := switch2_type .NOT .NOT_EQUAL
                                { l with width := 1, pos := l.pos + 1 }
                              rcases hsw : switch2 .NOT .NOT_EQUAL
                                  { l with width := 1, pos := l.pos + 1 } with ⟨styp, sst⟩
                              rw [hsw] at hsw0 hty0
                              dsimp only at hsw0 hty0 ⊢
                              have hpos1 : l.pos + 1 ≤ sst.pos := stateStep_pos_le hsw0
                              have hub : sst.pos ≤ max (l.pos + 1) l.input.length := hsw0.2.2.2
                              have hstep : StateStep l sst :=
                                stateStep_trans (advanceStep l hlt) hsw0
                              refine emitAndGo_ok fuel _ l _ hstep hsp (by omega) ?_ ?_ ?_
                              · rcases hty0 with h | h <;> rw [h] <;> decide
                              · rcases hty0 with h | h <;> rw [h] <;> decide
                              · exact ih { sst with start := sst.pos } rfl
                                  (show sst.pos ≤ sst.input.length by rw [hstep.1]; omega)
                                  (show sst.input.length + 1 ≤ fuel + sst.pos by rw [hstep.1]; omega)
                            · rw [if_neg h13]
                              by_cases h14 : l.input.getD l.pos 0 = 61
                              · rw [if_pos h14]
                                have hsw0 := switch3_step .ASSIGN .EQUAL 62 .DOUBLE_ARROW
                                  { l with width := 1, pos := l.pos + 1 }
                                have hty0 := switch3_type .ASSIGN .EQUAL 62 .DOUBLE_ARROW
                                  { l with width := 1, pos := l.pos + 1 }
                                rcases hsw : switch3 .ASSIGN .EQUAL 62 .DOUBLE_ARROW
                                    { l with width := 1, pos := l.pos + 1 } with ⟨styp, sst⟩
                                rw [hsw] at hsw0 hty0
                                dsimp only at hsw0 hty0 ⊢
                                have hpos1 : l.pos + 1 ≤ sst.pos := stateStep_pos_le hsw0
                                have hub : sst.pos ≤ max (l.pos + 1) l.input.length := hsw0.2.2.2
                                have hstep : StateStep l sst :=
                                  stateStep_trans (advanceStep l hlt) hsw0
                                refine emitAndGo_ok fuel _ l _ hstep hsp (by omega) ?_ ?_ ?_
                                · rcases hty0 with h | h | h <;> rw [h] <;> decide
                                · rcases hty0 with h | h | h <;> rw [h] <;> decide
                                · exact ih { sst with start := sst.pos } rfl
                                    (show sst.pos ≤ sst.input.length by rw [hstep.1]; omega)
                                    (show sst.input.length + 1 ≤ fuel + sst.pos by rw [hstep.1]; omega)
                              · rw [if_neg h14]
                                by_cases h15 : l.input.getD l.pos 0 = 43
                                · rw [if_pos h15]
                                  have hsw0 := switch3_step .ADD .ASSIGN_ADD 43 .INC
                                    { l with width := 1, pos := l.pos + 1 }
                                  have hty0 := switch3_type .ADD .ASSIGN_ADD 43 .INC
                                    { l with width := 1, pos := l.pos + 1 }
                                  rcases hsw : switch3 .ADD .ASSIGN_ADD 43 .INC
                                      { l with width := 1, pos := l.pos + 1 } with ⟨styp, sst⟩
                                  rw [hsw] at hsw0 hty0
                                  dsimp only at hsw0 hty0 ⊢
                                  have hpos1 : l.pos + 1 ≤ sst.pos := stateStep_pos_le hsw0
                                  have hub : sst.pos ≤ max (l.pos + 1) l.input.length := hsw0.2.2.2
                                  have hstep : StateStep l sst :=
                                    stateStep_trans (advanceStep l hlt) hsw0
                                  refine emitAndGo_ok fuel _ l _ hstep hsp (by omega) ?_ ?_ ?_
                                  · rcases hty0 with h | h | h <;> rw [h] <;> decide
                                  · rcases hty0 with h | h | h <;> rw [h] <;> decide
                                  · exact ih { sst with start := sst.pos } rfl
                                      (show sst.pos ≤ sst.input.length by rw [hstep.1]; omega)
                                      (show sst.input.length + 1 ≤ fuel + sst.pos by rw [hstep.1]; omega)
                                · rw [if_neg h15]
                                  by_cases h16 : l.input.getD l.pos 0 = 45
                                  · rw [if_pos h16]
                                    have hra0 := accept_step [62]
                                      { l with width := 1, pos := l.pos + 1 }
                                    rcases hra : accept [62]
                                        { l with width := 1, pos := l.pos + 1 } with ⟨bra, ra2⟩
                                    rw [hra] at hra0
                                    dsimp only at hra0 ⊢
                                    have hra1 : l.pos + 1 ≤ ra2.pos := stateStep_pos_le hra0
                                    have hraub : ra2.pos ≤ max (l.pos + 1) l.input.length :=
                                      hra0.2.2.2
                                    cases bra
                                    · simp only [Bool.false_eq_true, if_false]
                                      have hsw0 := switch3_step .SUB .ASSIGN_SUB 45 .DEC ra2
                                      have hty0 := switch3_type .SUB .ASSIGN_SUB 45 .DEC ra2
                                      rcases hsw : switch3 .SUB .ASSIGN_SUB 45 .DEC ra2
                                        with ⟨styp, sst⟩
                                      rw [hsw] at hsw0 hty0
                                      dsimp only at hsw0 hty0 ⊢
                                      have hpos1 : ra2.pos ≤ sst.pos := stateStep_pos_le hsw0
                                      have hub : sst.pos ≤ max ra2.pos ra2.input.length :=
                                        hsw0.2.2.2
                                      have hinp2 : ra2.input = l.input := hra0.1
                                      rw [hinp2] at hub
                                      have hstep : StateStep l sst :=
                                        stateStep_trans (stateStep_trans (advanceStep l hlt)
                                          hra0) hsw0
                                      refine emitAndGo_ok fuel _ l _ hstep hsp (by omega)
                                        ?_ ?_ ?_
                                      · rcases hty0 with h | h | h <;> rw [h] <;> decide
                                      · rcases hty0 with h | h | h <;> rw [h] <;> decide
                                      · exact ih { sst with start := sst.pos } rfl
                                          (show sst.pos ≤ sst.input.length by rw [hstep.1]; omega)
                                          (show sst.input.length + 1 ≤ fuel + sst.pos by rw [hstep.1]; omega)
                                    · simp only [if_true]
                                      have hstep : StateStep l ra2 :=
                                        stateStep_trans (advanceStep l hlt) hra0
                                      refine emitAndGo_ok fuel _ l _ hstep hsp (by omega)
                                        (by decide) (by decide) ?_
                                      exact ih { ra2 with start := ra2.pos } rfl
                                        (show ra2.pos ≤ ra2.input.length by rw [hstep.1]; omega)
                                        (show ra2.input.length + 1 ≤ fuel + ra2.pos by rw [hstep.1]; omega)
                                  · rw [if_neg h16]
                                    by_cases h17 : l.input.getD l.pos 0 = 60
                                    · rw [if_pos h17]
                                      have hsw0 := switch4_step .LESS_THAN .LESS_THAN_OR_EQUAL
                                        60 .SHL .ASSIGN_SHL { l with width := 1, pos := l.pos + 1 }
                                      have hty0 := switch4_type .LESS_THAN .LESS_THAN_OR_EQUAL
                                        60 .SHL .ASSIGN_SHL { l with width := 1, pos := l.pos + 1 }
                                      rcases hsw : switch4 .LESS_THAN .LESS_THAN_OR_EQUAL
                                          60 .SHL .ASSIGN_SHL
                                          { l with width := 1, pos := l.pos + 1 } with ⟨styp, sst⟩
                                      rw [hsw] at hsw0 hty0
                                      dsimp only at hsw0 hty0 ⊢
                                      have hpos1 : l.pos + 1 ≤ sst.pos := stateStep_pos_le hsw0
                                      have hub : sst.pos ≤ max (l.pos + 1) l.input.length :=
                                        hsw0.2.2.2
                                      have hstep : StateStep l sst :=
                                        stateStep_trans (advanceStep l hlt) hsw0
                                      refine emitAndGo_ok fuel _ l _ hstep hsp (by omega)
                                        ?_ ?_ ?_
                                      · rcases hty0 with h | h | h | h <;> rw [h] <;> decide
                                      · rcases hty0 with h | h | h | h <;> rw [h] <;> decide
                                      · exact ih { sst with start := sst.pos } rfl
                                          (show sst.pos ≤ sst.input.length by rw [hstep.1]; omega)
                                          (show sst.input.length + 1 ≤ fuel + sst.pos by rw [hstep.1]; omega)
                                    · rw [if_neg h17]
                                      by_cases h18 : l.input.getD l.pos 0 = 62
                                      · rw [if_pos h18]
                                        have hra0 := accept_step [61]
                                          { l with width := 1, pos := l.pos + 1 }
                                        rcases hra : accept [61]
                                            { l with width := 1, pos := l.pos + 1 }
                                          with ⟨bra, ra2⟩
                                        rw [hra] at hra0
                                        dsimp only at hra0 ⊢
                                        have hra1 : l.pos + 1 ≤ ra2.pos := stateStep_pos_le hra0
                                        have hraub : ra2.pos ≤ max (l.pos + 1) l.input.length :=
                                          hra0.2.2.2
                                        cases bra
                                        · simp only [Bool.false_eq_true, if_false]
                                          have hrb0 := accept_step [62] ra2
                                          rcases hrb : accept [62] ra2 with ⟨brb, rb2⟩
                                          rw [hrb] at hrb0
                                          dsimp only at hrb0 ⊢
                                          have hrb1 : ra2.pos ≤ rb2.pos := stateStep_pos_le hrb0
                                          have hrbub : rb2.pos ≤ max ra2.pos ra2.input.length :=
                                            hrb0.2.2.2
                                          have hinp2 : ra2.input = l.input := hra0.1
                                          rw [hinp2] at hrbub
                                          cases brb
                                          · simp only [Bool.false_eq_true, if_false]
                                            have hstep : StateStep l rb2 :=
                                              stateStep_trans (stateStep_trans
                                                (advanceStep l hlt) hra0) hrb0
                                            refine emitAndGo_ok fuel _ l _ hstep hsp (by omega)
                                              (by decide) (by decide) ?_
                                            exact ih { rb2 with start := rb2.pos } rfl
                                              (show rb2.pos ≤ rb2.input.length by rw [hstep.1]; omega)
                                              (show rb2.input.length + 1 ≤ fuel + rb2.pos by rw [hstep.1]; omega)
                                          · simp only [if_true]
                                            have hsw0 := switch4_step .SAR .ASSIGN_SAR 62
                                              .SHR .ASSIGN_SHR rb2
                                            have hty0 := switch4_type .SAR .ASSIGN_SAR 62
                                              .SHR .ASSIGN_SHR rb2
                                            rcases hsw : switch4 .SAR .ASSIGN_SAR 62
                                                .SHR .ASSIGN_SHR rb2 with ⟨styp, sst⟩
                                            rw [hsw] at hsw0 hty0
                                            dsimp only at hsw0 hty0 ⊢
                                            have hpos1 : rb2.pos ≤ sst.pos :=
                                              stateStep_pos_le hsw0
                                            have hub : sst.pos ≤ max rb2.pos rb2.input.length :=
                                              hsw0.2.2.2
                                            have hinp3 : rb2.input = l.input := by
                                              rw [hrb0.1, hinp2]
                                            rw [hinp3] at hub
                                            have hstep : StateStep l sst :=
                                              stateStep_trans (stateStep_trans (stateStep_trans
                                                (advanceStep l hlt) hra0) hrb0) hsw0
                                            refine emitAndGo_ok fuel _ l _ hstep hsp (by omega)
                                              ?_ ?_ ?_
                                            · rcases hty0 with h | h | h | h <;> rw [h] <;> decide
                                            · rcases hty0 with h | h | h | h <;> rw [h] <;> decide
                                            · exact ih { sst with start := sst.pos } rfl
                                                (show sst.pos ≤ sst.input.length by rw [hstep.1]; omega)
                                                (show sst.input.length + 1 ≤ fuel + sst.pos by rw [hstep.1]; omega)
                                        · simp only [if_true]
                                          have hstep : StateStep l ra2 :=
                                            stateStep_trans (advanceStep l hlt) hra0
                                          refine emitAndGo_ok fuel _ l _ hstep hsp (by omega)
                                            (by decide) (by decide) ?_
                                          exact ih { ra2 with start := ra2.pos } rfl
                                            (show ra2.pos ≤ ra2.input.length by rw [hstep.1]; omega)
                                            (show ra2.input.length + 1 ≤ fuel + ra2.pos by rw [hstep.1]; omega)
                                      · rw [if_neg h18]
                                        refine ⟨[], _, rfl, Or.inr rfl, by simp, ?_, ?_⟩
                                        · intro hnn
                                          exact Or.inl rfl
                                        · intro u hu hni
                                          simp only [List.mem_singleton, Item.tok.injEq] at hu
                                          rw [hu] at hni
                                          exact absurd rfl hni


lemma lexItems_ok (src : List Nat) : LexOutputOK src 0 (lexItems src) :=
  lexRun_ok (src.length + 1) (initLex src) rfl (Nat.zero_le _)
    (show src.length + 1 ≤ src.length + 1 + 0 by omega)

lemma tokItem_of_mem_filterMap {items : List Item} {t : Token}
    (h : t ∈ items.filterMap itemToken) : Item.tok t ∈ items := by
  obtain ⟨a, ha, hfa⟩ := List.mem_filterMap.1 h
  have : a = Item.tok t := by
    cases a with
    | tok u =>
      simp only [itemToken, Option.some.injEq] at hfa
      rw [hfa]
    | ws p w => simp [itemToken] at hfa
  rw [this] at ha
  exact ha

lemma lexTokens_decomp (src : List Nat) :
    ∃ pre t, lexTokens src = pre ++ [t] ∧ isTerminal t ∧ ∀ u ∈ pre, ¬ isTerminal u := by
  obtain ⟨pre, t, hitems, hterm, hpre, hcov, hbound⟩ := lexItems_ok src
  refine ⟨pre.filterMap itemToken, t, ?_, hterm, ?_⟩
  · rw [lexTokens, lexItems] at *
    rw [hitems, List.filterMap_append]
    simp [itemToken]
  · intro u hu
    exact hpre u (tokItem_of_mem_filterMap hu)

lemma pullAt_eq_getElem? (ts : List Token) (n : Nat) :
    pullAt ⟨ts⟩ n = ts[n]? := by
  induction n generalizing ts with
  | zero => cases ts <;> simp [pullAt, NextToken]
  | succ n ih =>
    cases ts with
    | nil =>
      rw [pullAt]
      show pullAt ⟨[]⟩ n = _
      rw [ih []]
      simp
    | cons t ts =>
      rw [pullAt]
      show pullAt ⟨ts⟩ n = _
      rw [ih ts]
      simp


/-- Claim C4 (amended): for any source text and any token the lexer emits
other than ILLEGAL, the token position plus the length of its literal text is
at most the length of the source text. The ILLEGAL token is excluded because
its literal carries a diagnostic message instead of matched text. -/
theorem token_position_bound (src : List Nat) (t : Token)
    (ht : t ∈ lexTokens src) (hni : ¬ t.type = .ILLEGAL) :
    t.pos + t.literal.length ≤ src.length := by
  obtain ⟨pre, tt, hitems, hterm, hpre, hcov, hbound⟩ := lexItems_ok src
  rw [lexTokens] at ht
  exact hbound t (tokItem_of_mem_filterMap ht) hni

/-- Counterexample for claim C4 as stated: on the source text consisting of
the single rune of the at sign, the ILLEGAL token carries the diagnostic
message as its literal, whose length far exceeds the source length. -/
theorem token_position_bound_counterexample :
    ¬ (∀ t ∈ lexTokens (strRunes "@"),
        t.pos + t.literal.length ≤ (strRunes "@").length) := by
  decide

/-- Witness for claim C4 at the identifier token of the source x; . -/
theorem token_position_bound_witness :
    (⟨.IDENTIFIER, strRunes "x", 0⟩ : Token) ∈ lexTokens (strRunes "x;") ∧
    (⟨.IDENTIFIER, strRunes "x", 0⟩ : Token).pos +
      (⟨.IDENTIFIER, strRunes "x", 0⟩ : Token).literal.length ≤ (strRunes "x;").length :=
  ⟨by decide, token_position_bound (strRunes "x;") ⟨.IDENTIFIER, strRunes "x", 0⟩
    (by decide) (by decide)⟩

/-- Claim C5: for every source text the token sequence is finite and ends in
exactly one terminal token, EOF or ILLEGAL, and no earlier token of the
sequence is terminal. -/
theorem lexer_single_terminal (src : List Nat) :
    ∃ pre t, lexTokens src = pre ++ [t] ∧ isTerminal t ∧ ∀ u ∈ pre, ¬ isTerminal u :=
  lexTokens_decomp src

/-- Claim C6: after the terminal token has been delivered, no further token
is available from the stream: every later pull via NextToken carries no
token. -/
theorem stream_exhausted_after_terminal (src : List Nat) (i : Nat) (t : Token)
    (hti : (lexTokens src)[i]? = some t) (hterm : isTerminal t) :
    ∀ j, i < j → pullAt ⟨lexTokens src⟩ j = none := by
  intro j hij
  obtain ⟨pre, tt, heq, htt, hpre⟩ := lexTokens_decomp src
  rw [pullAt_eq_getElem?]
  have hlen : i < (lexTokens src).length := by
    by_contra hc
    rw [List.getElem?_eq_none (by omega)] at hti
    exact Option.noConfusion hti
  have hip : ¬ i < pre.length := by
    intro hc
    have : (lexTokens src)[i]? = pre[i]? := by
      rw [heq]
      exact List.getElem?_append_left hc
    rw [this] at hti
    exact hpre t (List.getElem?_mem hti) hterm
  have hlen2 : (lexTokens src).length = pre.length + 1 := by
    rw [heq]
    simp
  exact List.getElem?_eq_none (by omega)

/-- Witness for claim C6: on the empty source the terminal EOF token is
delivered first and the following pull carries no token. -/
theorem stream_exhausted_after_terminal_witness :
    ((lexTokens (strRunes ""))[0]? = some ⟨.EOF, [], 0⟩ ∧
      isTerminal (⟨.EOF, [], 0⟩ : Token)) ∧
    pullAt ⟨lexTokens (strRunes "")⟩ 1 = none :=
  ⟨⟨by decide, by decide⟩,
    stream_exhausted_after_terminal (strRunes "") 0 ⟨.EOF, [], 0⟩ (by decide) (by decide)
      1 (by decide)⟩

/-- Claim C3 (amended): for every source text that contains no NUL rune and
whose scan ends in the EOF token, concatenating every emitted token literal
in order with the skipped whitespace runs reinserted where they occurred
reconstructs the source text exactly. -/
theorem lexer_round_trip (src : List Nat) (hnn : ¬ 0 ∈ src)
    (heof : ∃ pre t, lexItems src = pre ++ [Item.tok t] ∧ t.type = .EOF) :
    concatText (lexItems src) = src := by
  obtain ⟨pre, t, hitems, hterm, hpre, hcov, hbound⟩ := lexItems_ok src
  rcases hcov hnn with h | h
  · exfalso
    obtain ⟨pre2, t2, hitems2, ht2⟩ := heof
    rw [hitems] at hitems2
    have h1 := congrArg List.getLast? hitems2
    rw [List.getLast?_concat, List.getLast?_concat] at h1
    have h2 : t = t2 := Item.tok.inj (Option.some.inj h1)
    rw [h2, ht2] at h
    exact TokenType.noConfusion h
  · rw [h]
    simp

/-- Counterexample for claim C3 as stated: an ILLEGAL scan replaces the
matched text by a message, and a NUL rune ends the scan with text left
behind, so neither source reconstructs. -/
theorem lexer_round_trip_counterexample :
    ¬ concatText (lexItems (strRunes "@")) = strRunes "@" ∧
    ¬ concatText (lexItems [0, 97]) = [0, 97] := by
  constructor <;> decide

/-- Witness for claim C3 on the source a b, whose scan ends in EOF. -/
theorem lexer_round_trip_witness :
    (¬ 0 ∈ strRunes "a b") ∧ concatText (lexItems (strRunes "a b")) = strRunes "a b" :=
  ⟨by decide, lexer_round_trip (strRunes "a b") (by decide)
    ⟨[Item.tok ⟨.IDENTIFIER, strRunes "a", 0⟩, Item.ws 1 (strRunes " "),
      Item.tok ⟨.IDENTIFIER, strRunes "b", 2⟩], ⟨.EOF, [], 3⟩, by decide, rfl⟩⟩


end SolParsor
